import Mathlib

/-!
# Appointly theme: global script (`src/assets/appointly-global.js`)

A shallow embedding of the behaviours of the theme's global script and the
properties proved about them.

Conventions of the embedding.

* Time is a virtual clock counted in milliseconds (`Nat`).  A `setTimeout`
  callback runs exactly at its due time, which is the time of the call plus
  the delay the timer really waits (`setTimeoutDelay`).  When a timer falls due at the very
  instant of a call to a wrapped function the browser may run either first;
  the flag `timersFirst` selects the order and every theorem holds for both
  values.
* The document is a flat table of elements; an element is identified by its
  index in the table, and object identity (`!==`) is index inequality.
* A JavaScript exception is `Except.error`.
-/

namespace Appointly

/-! ## Timers -/

/-- The delay, in milliseconds, that `setTimeout(handler, timeout)` waits: the
timer initialisation steps of the browser convert `timeout` to a signed 32-bit
integer (modulo `2^32`) and take a negative result as 0.  So a `timeout` below
`2^31` is waited in full and a `timeout` of `2^31` fires at once. -/
def setTimeoutDelay (timeout : Nat) : Nat :=
  let m := timeout % 2 ^ 32
  if m < 2 ^ 31 then m else 0

/-! ## Utilities: `debounce` (source lines 14-24) -/

/-- A pending `setTimeout(later, wait)`: its handle, the time it falls due and
the `args` captured by the closure `later`. -/
structure DebounceTimer (α : Type) where
  id : Nat
  due : Nat
  args : α
  deriving DecidableEq, Repr

/-- State of one `debounce(func, wait)` closure together with the timer table
it uses: the variable `timeout` (undefined at first), the pending timers, the
next fresh timer handle and the record of the invocations of `func` (time and
arguments). -/
structure DebounceState (α : Type) where
  timeout : Option Nat
  timers : List (DebounceTimer α)
  nextId : Nat
  log : List (Nat × α)
  deriving DecidableEq, Repr

/-- State right after `debounce(func, wait)` returned: `let timeout;`. -/
def DebounceState.init (α : Type) : DebounceState α :=
  { timeout := none, timers := [], nextId := 1, log := [] }

/-- The browser's `clearTimeout(handle)`: the timer with that handle, if any,
is removed; an undefined or stale handle changes nothing. -/
def clearTimeout {α : Type} (handle : Option Nat) (timers : List (DebounceTimer α)) :
    List (DebounceTimer α) :=
  timers.filter (fun t => some t.id != handle)

/-- The closure `later` of the call whose timer is `t`, run when `t` fires:
`clearTimeout(timeout); func(...args);`. -/
def later {α : Type} (t : DebounceTimer α) (s : DebounceState α) : DebounceState α :=
  { s with timers := clearTimeout s.timeout s.timers, log := s.log ++ [(t.due, t.args)] }

/-- The body of `executedFunction(...args)` called at time `now`:
`clearTimeout(timeout); timeout = setTimeout(later, wait);`. -/
def executedFunction {α : Type} (wait now : Nat) (args : α) (s : DebounceState α) :
    DebounceState α :=
  { timeout := some s.nextId
    timers := clearTimeout s.timeout s.timers ++
      [{ id := s.nextId, due := now + setTimeoutDelay wait, args := args }]
    nextId := s.nextId + 1
    log := s.log }

/-- The pending timer that fires next: the one with the least due time, the
oldest among equals. -/
def earliest {α : Type} : List (DebounceTimer α) → Option (DebounceTimer α)
  | [] => none
  | t :: ts =>
    match earliest ts with
    | none => some t
    | some u => if u.due < t.due then some u else some t

/-- Whether a timer due at `due` runs before the call made at time `now`. -/
def isDue (timersFirst : Bool) (now due : Nat) : Bool :=
  if timersFirst then decide (due ≤ now) else decide (due < now)

/-- The event loop running the timers selected by `due`, earliest first.  No
callback of `debounce` starts a timer, so `fuel = number of pending timers` is
always enough. -/
def runDebounceTimers {α : Type} (due : Nat → Bool) : Nat → DebounceState α → DebounceState α
  | 0, s => s
  | fuel + 1, s =>
    match earliest s.timers with
    | none => s
    | some t =>
      if due t.due then
        runDebounceTimers due fuel (later t { s with timers := s.timers.filter (fun u => u.id != t.id) })
      else s

/-- One call `(now, args)` of the wrapped function: the timers that fell due
run, then `executedFunction` does. -/
def debounceCall {α : Type} (timersFirst : Bool) (wait : Nat) (s : DebounceState α)
    (c : Nat × α) : DebounceState α :=
  executedFunction wait c.1 c.2 (runDebounceTimers (isDue timersFirst c.1) s.timers.length s)

/-- State after the calls `calls` (time, arguments) were made in order. -/
def debounceCalls {α : Type} (timersFirst : Bool) (wait : Nat) (calls : List (Nat × α)) :
    DebounceState α :=
  calls.foldl (debounceCall timersFirst wait) (DebounceState.init α)

/-- The calls followed by the passage of enough time for every pending timer
to fire. -/
def debounceRun {α : Type} (timersFirst : Bool) (wait : Nat) (calls : List (Nat × α)) :
    DebounceState α :=
  let s := debounceCalls timersFirst wait calls
  runDebounceTimers (fun _ => true) s.timers.length s

/-! ## Utilities: `throttle` (source lines 26-35) -/

/-- State of one `throttle(func, limit)` closure: the variable `inThrottle`
(undefined, hence falsy, at first), the due times of the pending
`setTimeout(() => inThrottle = false, limit)` timers and the record of the
invocations of `func` (time and arguments). -/
structure ThrottleState (α : Type) where
  inThrottle : Bool
  timers : List Nat
  log : List (Nat × α)
  deriving DecidableEq, Repr

/-- State right after `throttle(func, limit)` returned: `let inThrottle;`. -/
def ThrottleState.init (α : Type) : ThrottleState α :=
  { inThrottle := false, timers := [], log := [] }

/-- The body of the wrapped function called at time `now` with `args`:
`if (!inThrottle) { func.apply(this, args); inThrottle = true;
setTimeout(() => inThrottle = false, limit); }`. -/
def throttled {α : Type} (limit now : Nat) (args : α) (s : ThrottleState α) : ThrottleState α :=
  if !s.inThrottle then
    { inThrottle := true
      timers := s.timers ++ [now + setTimeoutDelay limit]
      log := s.log ++ [(now, args)] }
  else s

/-- The due time of the pending timer that fires next. -/
def earliestDue : List Nat → Option Nat
  | [] => none
  | t :: ts =>
    match earliestDue ts with
    | none => some t
    | some u => if u < t then some u else some t

/-- The event loop running the timers selected by `due`, earliest first; the
callback of every timer is `() => inThrottle = false`.  The callback starts no
timer, so `fuel = number of pending timers` is always enough. -/
def runThrottleTimers {α : Type} (due : Nat → Bool) : Nat → ThrottleState α → ThrottleState α
  | 0, s => s
  | fuel + 1, s =>
    match earliestDue s.timers with
    | none => s
    | some t =>
      if due t then
        runThrottleTimers due fuel { s with inThrottle := false, timers := s.timers.erase t }
      else s

/-- One call `(now, args)` of the wrapped function: the timers that fell due
run, then the wrapped function does. -/
def throttleCall {α : Type} (timersFirst : Bool) (limit : Nat) (s : ThrottleState α)
    (c : Nat × α) : ThrottleState α :=
  throttled limit c.1 c.2 (runThrottleTimers (isDue timersFirst c.1) s.timers.length s)

/-- State after the calls `calls` (time, arguments) were made in order. -/
def throttleCalls {α : Type} (timersFirst : Bool) (limit : Nat) (calls : List (Nat × α)) :
    ThrottleState α :=
  calls.foldl (throttleCall timersFirst limit) (ThrottleState.init α)

/-! ## Email validation (source lines 370-372)

Strings are sequences of Unicode code points here and of UTF-16 code units in
the script; the two agree on the pattern below, which only tells `@`, `.` and
white space (all single code units) from every other unit. -/

/-- The ECMAScript character class `\s`: the code points of WhiteSpace and
LineTerminator. -/
def isJsWhitespace (c : Char) : Bool :=
  let n := c.toNat
  n == 0x09 || n == 0x0A || n == 0x0B || n == 0x0C || n == 0x0D || n == 0x20 ||
  n == 0xA0 || n == 0x1680 || (0x2000 ≤ n && n ≤ 0x200A) || n == 0x2028 || n == 0x2029 ||
  n == 0x202F || n == 0x205F || n == 0x3000 || n == 0xFEFF

/-- An atom of a regular expression: a literal character, or a negated class
`[^...]` listing `\s` (when `space`) and single characters. -/
inductive RegexAtom where
  | char (c : Char)
  | negClass (space : Bool) (chars : List Char)
  deriving DecidableEq, Repr

/-- Whether the atom matches the character. -/
def RegexAtom.test : RegexAtom → Char → Bool
  | .char d, c => c == d
  | .negClass space chars, c => !((space && isJsWhitespace c) || chars.contains c)

/-- An atom matched once, or one or more times (`+`). -/
inductive RegexItem where
  | one (a : RegexAtom)
  | plus (a : RegexAtom)
  deriving DecidableEq, Repr

/-- Backtracking match of the whole input against a sequence of items, i.e. of
`^ items $` without flags: `+` is greedy and gives characters back when the
rest fails. -/
def matchItems : List RegexItem → List Char → Bool
  | [], s => s.isEmpty
  | .one _ :: _, [] => false
  | .one a :: rest, c :: s => a.test c && matchItems rest s
  | .plus _ :: _, [] => false
  | .plus a :: rest, c :: s => a.test c && (matchItems (.plus a :: rest) s || matchItems rest s)

/-- The literal `/^[^\s@]+@[^\s@]+\.[^\s@]+$/`. -/
def emailPattern : List RegexItem :=
  [.plus (.negClass true ['@']), .one (.char '@'), .plus (.negClass true ['@']),
   .one (.char '.'), .plus (.negClass true ['@'])]

/-- The function `isValidEmail(email)`: `return /^[^\s@]+@[^\s@]+\.[^\s@]+$/.test(email);`. -/
def isValidEmail (email : String) : Bool := matchItems emailPattern email.toList


/-! ## Form validation (source lines 319-368) -/

/-- The method `String.prototype.trim`: leading and trailing WhiteSpace and LineTerminator
code points are removed. -/
def jsTrim (s : String) : String :=
  ⟨((s.toList.dropWhile isJsWhitespace).reverse.dropWhile isJsWhitespace).reverse⟩

/-- The method `classList.add(cls)` on a class list. -/
def classListAdd (cls : String) (classes : List String) : List String :=
  if classes.contains cls then classes else classes ++ [cls]

/-- The method `classList.remove(cls)` on a class list. -/
def classListRemove (cls : String) (classes : List String) : List String :=
  classes.filter (fun c => c != cls)

/-- A field of a form: whether it matches `[required]`, whether it matches
`input[type="email"]`, its `value`, its class list, and whether it lies inside
an element of the form that carries the class `form-error`. -/
structure FormField where
  required : Bool
  emailInput : Bool
  value : String
  classes : List String
  insideFormError : Bool
  deriving DecidableEq, Repr

/-- Whether the step `this.querySelectorAll('.form-error').forEach(error =>
error.remove())` takes the field out of the form: it does when the field itself
carries the class `form-error` or lies inside an element that does. -/
def FormField.removedByClear (f : FormField) : Bool :=
  f.classes.contains "form-error" || f.insideFormError

/-- A `div.form-error` inside the form: the field to whose parent it was
appended and its text. -/
structure FormError where
  field : Nat
  message : String
  deriving DecidableEq, Repr

/-- A form tagged `data-form-validate`: its fields in document order and the
`.form-error` elements it contains. -/
structure Form where
  fields : List FormField
  errors : List FormError
  deriving DecidableEq, Repr

/-- The closure state of one run of the submit handler: the form and the
local `isValid`. -/
structure SubmitState where
  form : Form
  isValid : Bool
  deriving DecidableEq, Repr

/-- The function `showError(field, message)` for the field at index `i`: the class
`form-input--error` is added to the field and a `div.form-error` carrying the
message is appended to the field's parent. -/
def showError (form : Form) (i : Nat) (message : String) : Form :=
  { fields := form.fields.modify (fun f => { f with classes := classListAdd "form-input--error" f.classes }) i
    errors := form.errors ++ [{ field := i, message := message }] }

/-- Body of the `requiredFields.forEach` callback for the field `(i, f)`. -/
def checkRequired (st : SubmitState) (p : Nat × FormField) : SubmitState :=
  if p.2.required && (jsTrim p.2.value == "") then
    { form := showError st.form p.1 "This field is required", isValid := false }
  else st

/-- Body of the `emailFields.forEach` callback for the field `(i, f)`. -/
def checkEmail (st : SubmitState) (p : Nat × FormField) : SubmitState :=
  if p.2.emailInput && p.2.value != "" && !isValidEmail p.2.value then
    { form := showError st.form p.1 "Please enter a valid email address", isValid := false }
  else st

/-- The submit handler of a validated form.  The result is the form afterwards
and whether `e.preventDefault()` was called.  First every `.form-error` element
is removed from the form, with the fields it is or holds, and the two error
classes are taken off the fields that stay; `[required]` and
`input[type="email"]` are queried after that, so both loops range over the
fields that stay.  `showError` never changes a value or whether a field matches
a selector. -/
def submitHandler (form : Form) : Form × Bool :=
  let kept := form.fields.filter (fun f => !f.removedByClear)
  let cleared : Form :=
    { fields := kept.map (fun f =>
        { f with classes := classListRemove "form-textarea--error"
                   (classListRemove "form-input--error" f.classes) })
      errors := [] }
  let st0 : SubmitState := { form := cleared, isValid := true }
  let st1 := kept.enum.foldl checkRequired st0
  let st2 := kept.enum.foldl checkEmail st1
  (st2.form, !st2.isValid)

/-- A form whose only field is required, empty, and carries the class
`form-error`. -/
def errorClassForm : Form :=
  { fields := [{ required := true, emailInput := false, value := "", classes := ["form-error"],
                 insideFormError := false }]
    errors := [] }

/-! ## The document (accordion, tabs, modals: source lines 188-313) -/

/-- An element of the document: its parent element, its `id`, its class list,
its other attributes, and whether it matches the selector
`button, [href], input, select, textarea, [tabindex]:not([tabindex="-1"])`. -/
structure Element where
  parent : Option Nat
  id : Option String
  classes : List String
  attrs : List (String × String)
  focusable : Bool
  deriving DecidableEq, Repr

/-- The page: the elements in document order (an element is named by its
index), `document.body.style.overflow`, and the element `focus()` was last
called on. -/
structure Page where
  elems : List Element
  bodyOverflow : String
  focused : Option Nat
  deriving DecidableEq, Repr

/-- The call `el.classList.contains(cls)`. -/
def Page.hasClass (p : Page) (i : Nat) (cls : String) : Bool :=
  match p.elems[i]? with
  | some e => e.classes.contains cls
  | none => false

/-- The call `el.classList.add(cls)`. -/
def Page.addClass (p : Page) (i : Nat) (cls : String) : Page :=
  { p with elems := p.elems.modify (fun e => { e with classes := classListAdd cls e.classes }) i }

/-- The call `el.classList.remove(cls)`. -/
def Page.removeClass (p : Page) (i : Nat) (cls : String) : Page :=
  { p with elems := p.elems.modify (fun e => { e with classes := classListRemove cls e.classes }) i }

/-- The call `el.getAttribute(name)`, `null` being `none`. -/
def Page.getAttribute (p : Page) (i : Nat) (name : String) : Option String :=
  match p.elems[i]? with
  | some e => (e.attrs.find? (fun a => a.1 == name)).map (fun a => a.2)
  | none => none

/-- The call `el.setAttribute(name, value)`. -/
def Page.setAttribute (p : Page) (i : Nat) (name value : String) : Page :=
  let set := fun (e : Element) =>
    { e with attrs := e.attrs.filter (fun a => a.1 != name) ++ [(name, value)] }
  { p with elems := p.elems.modify set i }

/-- The call `document.querySelectorAll('.' + cls)`: the elements carrying the class, in
document order. -/
def Page.querySelectorAll (p : Page) (cls : String) : List Nat :=
  (List.range p.elems.length).filter (fun i => p.hasClass i cls)

/-- The call `document.getElementById(id)`: the first element with that id; no element
has the empty id. -/
def Page.getElementById (p : Page) (id : String) : Option Nat :=
  if id == "" then none
  else (List.range p.elems.length).find? (fun i =>
    match p.elems[i]? with
    | some e => e.id == some id
    | none => false)

/-- The walk of `closest`: the element itself, then its ancestors. -/
def Page.closestFrom (p : Page) (cls : String) : Nat → Nat → Option Nat
  | 0, _ => none
  | fuel + 1, i =>
    match p.elems[i]? with
    | none => none
    | some e =>
      if e.classes.contains cls then some i
      else
        match e.parent with
        | none => none
        | some q => p.closestFrom cls fuel q

/-- The call `el.closest('.' + cls)`.  A chain of ancestors has at most as many elements
as the document, so the fuel is enough. -/
def Page.closest (p : Page) (cls : String) (i : Nat) : Option Nat :=
  p.closestFrom cls p.elems.length i

/-- Whether `anc` is a proper ancestor of the element `i`. -/
def Page.hasAncestor (p : Page) (anc : Nat) : Nat → Nat → Bool
  | 0, _ => false
  | fuel + 1, i =>
    match p.elems[i]? with
    | none => false
    | some e =>
      match e.parent with
      | none => false
      | some q => q == anc || p.hasAncestor anc fuel q

/-- The click handler of an `.accordion-header` (source lines 192-214), `this`
being `header`.  `item.classList` throws when `closest` found nothing. -/
def accordionClick (p : Page) (header : Nat) : Except String Page :=
  match p.closest "accordion-item" header with
  | none => .error "TypeError: Cannot read properties of null (reading 'classList')"
  | some item =>
    let isActive := p.hasClass item "active"
    let p1 := (p.querySelectorAll "accordion-item").foldl
      (fun q i => if i != item then q.removeClass i "active" else q) p
    let p2 := if isActive then p1.removeClass item "active" else p1.addClass item "active"
    let expanded := p2.hasClass item "active"
    .ok (p2.setAttribute header "aria-expanded" (toString expanded))

/-- The click handler of a `.tab` (source lines 226-246), `this` being
`button`.  A missing attribute reads as `null`, which `getElementById` looks up
as the id `"null"`. -/
def tabClick (p : Page) (button : Nat) : Except String Page :=
  let targetId := p.getAttribute button "data-tab-target"
  match p.getElementById (targetId.getD "null") with
  | none => .ok p
  | some targetContent =>
    let p1 := (p.querySelectorAll "tab").foldl
      (fun q tab => (q.removeClass tab "tab--active").setAttribute tab "aria-selected" "false") p
    let p2 := (p1.querySelectorAll "tab-content").foldl
      (fun q content => q.removeClass content "tab-content--active") p1
    let p3 := (p2.addClass button "tab--active").setAttribute button "aria-selected" "true"
    .ok (p3.addClass targetContent "tab-content--active")

/-- The function `openModal(modal)` (source lines 297-308). -/
def openModal (p : Page) (modal : Nat) : Page :=
  let p1 := { p.addClass modal "active" with bodyOverflow := "hidden" }
  let focusableElements := (List.range p1.elems.length).filter (fun i =>
    p1.hasAncestor modal p1.elems.length i &&
      (match p1.elems[i]? with
       | some e => e.focusable
       | none => false))
  match focusableElements with
  | [] => p1
  | first :: _ => { p1 with focused := some first }

/-- The function `closeModal(modal)` (source lines 310-313). -/
def closeModal (p : Page) (modal : Nat) : Page :=
  { p.removeClass modal "active" with bodyOverflow := "" }

/-- The click handler of a `[data-modal-open]` trigger (source lines 257-263). -/
def modalOpenClick (p : Page) (trigger : Nat) : Except String Page :=
  let modalId := p.getAttribute trigger "data-modal-open"
  match p.getElementById (modalId.getD "null") with
  | some modal => .ok (openModal p modal)
  | none => .ok p

/-- The click handler of a `[data-modal-close]` button and of a
`.modal__backdrop` (source lines 268-273 and 278-283): the same body. -/
def modalCloseClick (p : Page) (closeBtn : Nat) : Except String Page :=
  match p.closest "modal" closeBtn with
  | some modal => .ok (closeModal p modal)
  | none => .ok p

/-! ## External links (source lines 477-484) -/

/-- An anchor of the document: its `href` attribute, the properties `link.href`
(the resolved absolute URL) and `link.hostname` (the host of that URL) the
browser derives from it, and its `target` and `rel` attributes. -/
structure Anchor where
  hrefAttr : Option String
  href : String
  hostname : String
  target : Option String
  rel : Option String
  deriving DecidableEq, Repr

/-- The call `s.includes(sub)`: `sub` occurs somewhere in `s`. -/
def jsIncludes (s sub : String) : Bool :=
  s.toList.tails.any (fun t => sub.toList.isPrefixOf t)

/-- Whether the anchor matches the selector `a[href^="http"]`. -/
def Anchor.matchesHttp (link : Anchor) : Bool :=
  match link.hrefAttr with
  | some v => "http".toList.isPrefixOf v.toList
  | none => false

/-- The function `initExternalLinks()` on a page whose `window.location.hostname` is
`hostname`: the anchors of the document afterwards. -/
def initExternalLinks (hostname : String) (anchors : List Anchor) : List Anchor :=
  anchors.map (fun link =>
    if link.matchesHttp && !jsIncludes link.href hostname then
      { link with target := some "_blank", rel := some "noopener noreferrer" }
    else link)

/-- A link to another host whose query string mentions the page's host. -/
def foreignLink : Anchor :=
  { hrefAttr := some "https://evil.test/?ref=example.com"
    href := "https://evil.test/?ref=example.com"
    hostname := "evil.test"
    target := none
    rel := none }

/-! ## Theme preference (source lines 490-506) -/

/-- What the theme module reads and writes: the `data-theme` attribute of the
document element and `localStorage`. -/
structure ThemeState where
  dataTheme : Option String
  storage : List (String × String)
  deriving DecidableEq, Repr

/-- The call `localStorage.getItem(key)`, `null` being `none`. -/
def getItem (storage : List (String × String)) (key : String) : Option String :=
  (storage.find? (fun kv => kv.1 == key)).map (fun kv => kv.2)

/-- The call `localStorage.setItem(key, value)`. -/
def setItem (storage : List (String × String)) (key value : String) : List (String × String) :=
  if storage.any (fun kv => kv.1 == key) then
    storage.map (fun kv => if kv.1 == key then (key, value) else kv)
  else storage ++ [(key, value)]

/-- The start of `initThemePreferences()`:
`const currentTheme = localStorage.getItem('theme') || 'light';` (the empty
string is falsy) and `setAttribute('data-theme', currentTheme)`. -/
def initThemePreferences (s : ThemeState) : ThemeState :=
  let currentTheme :=
    match getItem s.storage "theme" with
    | some v => if v == "" then "light" else v
    | none => "light"
  { s with dataTheme := some currentTheme }

/-- The click handler of the `[data-theme-toggle]` control. -/
def themeToggleClick (s : ThemeState) : ThemeState :=
  let theme := s.dataTheme
  let newTheme := if theme == some "light" then "dark" else "light"
  { dataTheme := some newTheme, storage := setItem s.storage "theme" newTheme }

/-- The page after `initThemePreferences()` and then `k` clicks on the toggle. -/
def themeAfterClicks (s : ThemeState) (k : Nat) : ThemeState :=
  themeToggleClick^[k] (initThemePreferences s)

/-- The other of the two theme values. -/
def otherTheme (t : String) : String := if t == "light" then "dark" else "light"

/-! ## Counter animation (source lines 381-398)

JavaScript numbers are IEEE 754 binary64 values.  Here a number is the
rational it denotes and the result of every arithmetic operation is rounded by
a function `rnd`; `roundBinary64` is the rounding of binary64 (to nearest,
ties to even, 53 significant bits) on the values that neither overflow nor
are subnormal, which are the only ones a target below `2^1023` meets.
`Math.floor` and comparisons are exact. -/

/-- Rounding of a rational to the nearest integer, ties to even. -/
def roundHalfEven (y : ℚ) : ℤ :=
  let f := ⌊y⌋
  let r := y - f
  if r < 1 / 2 then f
  else if 1 / 2 < r then f + 1
  else if f % 2 = 0 then f else f + 1

/-- Rounding of a positive rational to 53 significant bits, ties to even. -/
def roundPos (x : ℚ) : ℚ :=
  let e := Int.log 2 x
  let ulp := (2 : ℚ) ^ (e - 52)
  roundHalfEven (x / ulp) * ulp

/-- Rounding to binary64. -/
def roundBinary64 (x : ℚ) : ℚ :=
  if x = 0 then 0 else if x < 0 then -roundPos (-x) else roundPos x

/-- The closure `updateCounter` of `animateCounter`, run once per animation
frame with the running total `current`; `frames` bounds the number of runs.
The result is the list of the values written to `element.textContent`, or
`none` when the animation has not ended within `frames` runs:
`current += increment; if (current < target) { element.textContent =
Math.floor(current); requestAnimationFrame(updateCounter); } else {
element.textContent = target; }`. -/
def updateCounter (rnd : ℚ → ℚ) (target increment : ℚ) : Nat → ℚ → Option (List ℚ)
  | 0, _ => none
  | frames + 1, current =>
    let current := rnd (current + increment)
    if current < target then
      (updateCounter rnd target increment frames current).map (fun ws => (⌊current⌋ : ℚ) :: ws)
    else some [target]

/-- The function `animateCounter(element)` for the parsed `target`: `duration = 2000`,
`increment = target / (duration / 16)`, `current = 0`, `updateCounter()`. -/
def animateCounter (rnd : ℚ → ℚ) (target : ℚ) (frames : Nat) : Option (List ℚ) :=
  let duration : ℚ := 2000
  let increment := rnd (target / rnd (duration / 16))
  updateCounter rnd target increment frames 0

/-! ## Example documents -/

/-- Two accordion items, each holding its header: item A (element 0) is open,
item B (element 2) is closed. -/
def accordionPage : Page :=
  { elems :=
      [ { parent := none, id := none, classes := ["accordion-item", "active"], attrs := [],
          focusable := false },
        { parent := some 0, id := none, classes := ["accordion-header"], attrs := [],
          focusable := true },
        { parent := none, id := none, classes := ["accordion-item"], attrs := [],
          focusable := false },
        { parent := some 2, id := none, classes := ["accordion-header"], attrs := [],
          focusable := true } ]
    bodyOverflow := ""
    focused := none }

/-- A modal (element 0) holding a close button (element 1). -/
def modalPage : Page :=
  { elems :=
      [ { parent := none, id := some "m", classes := ["modal"], attrs := [],
          focusable := false },
        { parent := some 0, id := none, classes := [], attrs := [("data-modal-close", "")],
          focusable := true } ]
    bodyOverflow := ""
    focused := none }

/-- A document made of one `.accordion-header` that is not inside any
`.accordion-item`. -/
def orphanHeaderPage : Page :=
  { elems :=
      [ { parent := none, id := none, classes := ["accordion-header"], attrs := [],
          focusable := true } ]
    bodyOverflow := ""
    focused := none }

/-! ## Predicates of the statements -/

/-- The closure is armed for the call `p`: `func` has not run, and the only
pending timer is the one of `p`, due `delay` after `p` and held in `timeout`. -/
def DebounceArmed {α : Type} (delay : Nat) (s : DebounceState α) (p : Nat × α) : Prop :=
  s.log = [] ∧ ∃ id, s.timeout = some id ∧ s.timers = [{ id := id, due := p.1 + delay, args := p.2 }]

/-- The closure is cooling down: `inThrottle` is set, `func` was last invoked
at some time `T` and the only pending timer is the one ending that cooldown, due
at `T + delay`. -/
def ThrottleCooling {α : Type} (delay : Nat) (s : ThrottleState α) : Prop :=
  s.inThrottle = true ∧ ∃ T a, s.log.getLast? = some (T, a) ∧ s.timers = [T + delay]

/-- Whether a field fails the required check: it is marked required and its
value is empty after trimming. -/
def failsRequired (f : FormField) : Prop := f.required = true ∧ jsTrim f.value = ""

/-- Whether a field fails the email check: it is an input of type email whose
value is not empty and is not a valid email. -/
def failsEmail (f : FormField) : Prop :=
  f.emailInput = true ∧ f.value ≠ "" ∧ isValidEmail f.value = false

/-! ## Theorems -/

/-! ### The fuel of the event loops is enough -/

theorem earliestDue_mem : ∀ (l : List Nat) (t : Nat), earliestDue l = some t → t ∈ l := by
  intro l
  induction l with
  | nil => intro t h; simp [earliestDue] at h
  | cons a rest ih =>
    intro t h
    rw [earliestDue] at h
    cases hr : earliestDue rest with
    | none =>
      rw [hr] at h
      simp only [Option.some.injEq] at h
      simp [h]
    | some u =>
      rw [hr] at h
      simp only at h
      split at h
      · cases h
        exact List.mem_cons_of_mem _ (ih _ hr)
      · cases h
        exact List.mem_cons_self _ _

/-- With as much fuel as there are pending timers, the event loop of `throttle`
stops only when no pending timer is due. -/
theorem runThrottleTimers_complete {α : Type} (due : Nat → Bool) :
    ∀ (fuel : Nat) (s : ThrottleState α), s.timers.length ≤ fuel →
      ∀ t, earliestDue (runThrottleTimers due fuel s).timers = some t → due t = false := by
  intro fuel
  induction fuel with
  | zero =>
    intro s hlen t ht
    have : s.timers = [] := List.length_eq_zero.1 (by omega)
    simp [runThrottleTimers, this, earliestDue] at ht
  | succ n ih =>
    intro s hlen t ht
    rw [runThrottleTimers] at ht
    cases he : earliestDue s.timers with
    | none =>
      rw [he] at ht
      simp only at ht
      rw [he] at ht
      cases ht
    | some u =>
      rw [he] at ht
      simp only at ht
      by_cases hd : due u = true
      · rw [if_pos hd] at ht
        refine ih _ ?_ t ht
        have hmem := earliestDue_mem _ _ he
        simp only [List.length_erase_of_mem hmem]
        have : 0 < s.timers.length := List.length_pos_of_mem hmem
        omega
      · rw [if_neg hd] at ht
        rw [he] at ht
        cases ht
        simpa using hd

theorem earliest_mem {α : Type} :
    ∀ (l : List (DebounceTimer α)) (t : DebounceTimer α), earliest l = some t → t ∈ l := by
  intro l
  induction l with
  | nil => intro t h; simp [earliest] at h
  | cons a rest ih =>
    intro t h
    rw [earliest] at h
    cases hr : earliest rest with
    | none =>
      rw [hr] at h
      simp only [Option.some.injEq] at h
      simp [h]
    | some u =>
      rw [hr] at h
      simp only at h
      split at h
      · cases h
        exact List.mem_cons_of_mem _ (ih _ hr)
      · cases h
        exact List.mem_cons_self _ _

/-- With as much fuel as there are pending timers, the event loop of `debounce`
stops only when no pending timer is due. -/
theorem runDebounceTimers_complete {α : Type} (due : Nat → Bool) :
    ∀ (fuel : Nat) (s : DebounceState α), s.timers.length ≤ fuel →
      ∀ t, earliest (runDebounceTimers due fuel s).timers = some t → due t.due = false := by
  intro fuel
  induction fuel with
  | zero =>
    intro s hlen t ht
    have : s.timers = [] := List.length_eq_zero.1 (by omega)
    simp [runDebounceTimers, this, earliest] at ht
  | succ n ih =>
    intro s hlen t ht
    rw [runDebounceTimers] at ht
    cases he : earliest s.timers with
    | none =>
      rw [he] at ht
      simp only at ht
      rw [he] at ht
      cases ht
    | some u =>
      rw [he] at ht
      simp only at ht
      by_cases hd : due u.due = true
      · rw [if_pos hd] at ht
        refine ih _ ?_ t ht
        have hmem := earliest_mem _ _ he
        have h1 : (s.timers.filter (fun v => v.id != u.id)).length < s.timers.length := by
          apply List.length_filter_lt_length_iff_exists.2
          exact ⟨u, hmem, by simp⟩
        have h2 : (clearTimeout s.timeout (s.timers.filter (fun v => v.id != u.id))).length ≤
            (s.timers.filter (fun v => v.id != u.id)).length := List.length_filter_le _ _
        simp only [later]
        omega
      · rw [if_neg hd] at ht
        rw [he] at ht
        cases ht
        simpa using hd

/-! ### `debounce` -/

theorem setTimeoutDelay_small (timeout : Nat) (h : timeout < 2 ^ 31) :
    setTimeoutDelay timeout = timeout := by
  have h32 : timeout % 2 ^ 32 = timeout := Nat.mod_eq_of_lt (by omega)
  have hdef : setTimeoutDelay timeout =
      if timeout % 2 ^ 32 < 2 ^ 31 then timeout % 2 ^ 32 else 0 := rfl
  rw [hdef, h32, if_pos h]

theorem debounceCall_init_armed {α : Type} (timersFirst : Bool) (wait : Nat) (c : Nat × α) :
    DebounceArmed (setTimeoutDelay wait)
      (debounceCall timersFirst wait (DebounceState.init α) c) c := by
  refine ⟨rfl, 1, rfl, ?_⟩
  simp [debounceCall, DebounceState.init, runDebounceTimers, executedFunction, clearTimeout]

theorem debounceCall_armed {α : Type} (timersFirst : Bool) (wait : Nat) (s : DebounceState α)
    (p c : Nat × α) (hs : DebounceArmed (setTimeoutDelay wait) s p)
    (hlt : c.1 < p.1 + setTimeoutDelay wait) :
    DebounceArmed (setTimeoutDelay wait) (debounceCall timersFirst wait s c) c := by
  obtain ⟨hlog, id, hto, htm⟩ := hs
  have hnd : isDue timersFirst c.1 (p.1 + setTimeoutDelay wait) = false := by
    cases timersFirst <;> simp [isDue] <;> omega
  have hrun : runDebounceTimers (isDue timersFirst c.1) s.timers.length s = s := by
    simp [htm, runDebounceTimers, earliest, hnd]
  unfold debounceCall
  rw [hrun]
  refine ⟨hlog, s.nextId, rfl, ?_⟩
  simp [executedFunction, clearTimeout, hto, htm]

theorem debounceCalls_armed {α : Type} (timersFirst : Bool) (wait : Nat) :
    ∀ (calls : List (Nat × α)) (p : Nat × α) (s : DebounceState α),
      DebounceArmed (setTimeoutDelay wait) s p →
      List.Chain (fun a b : Nat × α => a.1 < b.1 ∧ b.1 < a.1 + setTimeoutDelay wait) p calls →
      ∃ q, (p :: calls).getLast? = some q ∧
        DebounceArmed (setTimeoutDelay wait) (calls.foldl (debounceCall timersFirst wait) s) q := by
  intro calls
  induction calls with
  | nil => intro p s hs _; exact ⟨p, rfl, hs⟩
  | cons c rest ih =>
    intro p s hs hch
    rw [List.chain_cons] at hch
    obtain ⟨q, hq, hq2⟩ := ih c _ (debounceCall_armed timersFirst wait s p c hs hch.1.2) hch.2
    refine ⟨q, ?_, hq2⟩
    rw [← hq]
    simp [List.getLast?_cons_cons]

theorem debounce_drain_armed {α : Type} (delay : Nat) (s : DebounceState α) (p : Nat × α)
    (hs : DebounceArmed delay s p) :
    (runDebounceTimers (fun _ => true) s.timers.length s).log = [(p.1 + delay, p.2)] := by
  obtain ⟨hlog, id, _, htm⟩ := hs
  simp [htm, runDebounceTimers, earliest, later, hlog]

/-- The behaviour of `debounce` for every `wait`, in terms of the delay the
timer really waits: a burst whose gaps are all smaller than that delay gives no
invocation until the last call has returned and then exactly one, that delay
after the last call, with its arguments. -/
theorem debounce_burst_delay {α : Type} (timersFirst : Bool) (wait : Nat)
    (calls : List (Nat × α)) (last : Nat × α)
    (hburst : List.Chain' (fun a b : Nat × α => a.1 < b.1 ∧ b.1 < a.1 + setTimeoutDelay wait)
      (calls ++ [last])) :
    (debounceCalls timersFirst wait (calls ++ [last])).log = [] ∧
    (debounceRun timersFirst wait (calls ++ [last])).log =
      [(last.1 + setTimeoutDelay wait, last.2)] := by
  have key : DebounceArmed (setTimeoutDelay wait)
      (debounceCalls timersFirst wait (calls ++ [last])) last := by
    cases hc : calls ++ [last] with
    | nil => simp at hc
    | cons c rest =>
      rw [hc] at hburst
      obtain ⟨q, hq, hq2⟩ := debounceCalls_armed timersFirst wait rest c _
        (debounceCall_init_armed timersFirst wait c) hburst
      have hlast : (c :: rest).getLast? = some last := by rw [← hc]; simp
      rw [hlast] at hq
      cases hq
      exact hq2
  exact ⟨key.1, debounce_drain_armed _ _ last key⟩

/-- C1 (amended). For every wait `w` with `0 < w < 2^31` (the range in which
`setTimeout` waits the delay it is given) and every non-empty burst of calls at
strictly increasing times whose consecutive gaps are all smaller than `w`,
`func` has not been invoked when the last call returns, and once the pending
timer has fired it has been invoked exactly once, at the time of the last call
plus `w`, with the arguments of the last call.  This holds for either order of
a timer and a call falling at the same instant. -/
theorem debounce_burst_fires_once {α : Type} (timersFirst : Bool) (wait : Nat)
    (_hpos : 0 < wait) (hw : wait < 2 ^ 31) (calls : List (Nat × α)) (last : Nat × α)
    (hburst : List.Chain' (fun a b : Nat × α => a.1 < b.1 ∧ b.1 < a.1 + wait) (calls ++ [last])) :
    (debounceCalls timersFirst wait (calls ++ [last])).log = [] ∧
    (debounceRun timersFirst wait (calls ++ [last])).log = [(last.1 + wait, last.2)] := by
  have hd := setTimeoutDelay_small wait hw
  have h := debounce_burst_delay timersFirst wait calls last (by rw [hd]; exact hburst)
  rw [hd] at h
  exact h

/-- Witness of C1: calls at t = 0, 50, 100 with wait 200 give one invocation,
at t = 300, with the third call's arguments. -/
theorem debounce_burst_fires_once_witness :
    (debounceCalls true 200 ([(0, "a"), (50, "b")] ++ [(100, "c")])).log = [] ∧
    (debounceRun true 200 ([(0, "a"), (50, "b")] ++ [(100, "c")])).log = [(100 + 200, "c")] :=
  debounce_burst_fires_once true 200 (by norm_num) (by norm_num) [(0, "a"), (50, "b")] (100, "c")
    (by simp)

/-- Counterexample to C1 as stated: with `wait = 2^31` the calls at t = 0 and
t = 50 form a burst (the gap, 50, is smaller than the wait), yet `func` is
invoked twice, at t = 0 and at t = 50, and not once at `50 + 2^31`: the delay
overflows the signed 32-bit range of `setTimeout` and each timer fires at
once. -/
theorem debounce_burst_overflow_counterexample :
    (0 < 2147483648) ∧
    List.Chain' (fun a b : Nat × String => a.1 < b.1 ∧ b.1 < a.1 + 2147483648)
      [(0, "a"), (50, "b")] ∧
    (debounceRun true 2147483648 [(0, "a"), (50, "b")]).log = [(0, "a"), (50, "b")] ∧
    (debounceRun false 2147483648 [(0, "a"), (50, "b")]).log = [(0, "a"), (50, "b")] ∧
    (debounceRun true 2147483648 [(0, "a"), (50, "b")]).log ≠ [(50 + 2147483648, "b")] := by
  refine ⟨by decide, by simp, by decide, by decide, by decide⟩

/-! ### `throttle` -/

theorem runThrottleTimers_log {α : Type} (due : Nat → Bool) :
    ∀ (fuel : Nat) (s : ThrottleState α), (runThrottleTimers due fuel s).log = s.log := by
  intro fuel
  induction fuel with
  | zero => intro s; rfl
  | succ n ih =>
    intro s
    simp only [runThrottleTimers]
    split
    · rfl
    · split
      · rw [ih]
      · rfl

/-- What one call does to a closure that is fresh or cooling down. -/
theorem throttleCall_step {α : Type} (timersFirst : Bool) (limit : Nat)
    (s : ThrottleState α) (c : Nat × α)
    (hs : s = ThrottleState.init α ∨ ThrottleCooling (setTimeoutDelay limit) s) :
    ThrottleCooling (setTimeoutDelay limit) (throttleCall timersFirst limit s c) ∧
    (s.log = [] → (throttleCall timersFirst limit s c).log = [c]) ∧
    (∀ T a, s.log.getLast? = some (T, a) → c.1 < T + setTimeoutDelay limit →
      (throttleCall timersFirst limit s c).log = s.log) ∧
    (∀ T a, s.log.getLast? = some (T, a) → T + setTimeoutDelay limit < c.1 →
      (throttleCall timersFirst limit s c).log = s.log ++ [c]) := by
  rcases hs with rfl | ⟨hin, T, a, hlast, htm⟩
  · refine ⟨⟨rfl, c.1, c.2, ?_, ?_⟩, fun _ => ?_, ?_, ?_⟩ <;>
      simp [throttleCall, ThrottleState.init, runThrottleTimers, throttled]
  · have hne : s.log ≠ [] := by
      intro h; rw [h] at hlast; simp at hlast
    by_cases hd : isDue timersFirst c.1 (T + setTimeoutDelay limit) = true
    · -- the cooldown timer fires before the call
      have hrun : runThrottleTimers (isDue timersFirst c.1) s.timers.length s =
          { s with inThrottle := false, timers := [] } := by
        simp [htm, runThrottleTimers, earliestDue, hd]
      have hle : T + setTimeoutDelay limit ≤ c.1 := by
        cases timersFirst <;> simp [isDue] at hd <;> omega
      unfold throttleCall
      rw [hrun]
      refine ⟨⟨by simp [throttled], c.1, c.2, by simp [throttled], by simp [throttled]⟩,
        fun h => absurd h hne, ?_, ?_⟩
      · intro T2 a2 h2 hlt
        rw [hlast] at h2
        cases h2
        omega
      · intro _ _ _ _
        simp [throttled]
    · -- the cooldown is still running: the call is dropped
      have hd2 : isDue timersFirst c.1 (T + setTimeoutDelay limit) = false := by simpa using hd
      have hrun : runThrottleTimers (isDue timersFirst c.1) s.timers.length s = s := by
        simp [htm, runThrottleTimers, earliestDue, hd2]
      have hge : c.1 ≤ T + setTimeoutDelay limit := by
        cases timersFirst <;> simp [isDue] at hd2 <;> omega
      unfold throttleCall
      rw [hrun]
      have hth : throttled limit c.1 c.2 s = s := by simp [throttled, hin]
      rw [hth]
      refine ⟨⟨hin, T, a, hlast, htm⟩, fun h => absurd h hne, fun _ _ _ _ => rfl, ?_⟩
      intro T2 a2 h2 hlt
      rw [hlast] at h2
      cases h2
      omega

/-- A call leaves the record of invocations alone or appends itself to it. -/
theorem throttleCall_log {α : Type} (timersFirst : Bool) (limit : Nat)
    (s : ThrottleState α) (c : Nat × α) :
    (throttleCall timersFirst limit s c).log = s.log ∨
    (throttleCall timersFirst limit s c).log = s.log ++ [c] := by
  unfold throttleCall throttled
  split
  · right; simp [runThrottleTimers_log]
  · left; simp [runThrottleTimers_log]

theorem throttle_foldl_sublist {α : Type} (timersFirst : Bool) (limit : Nat) :
    ∀ (calls : List (Nat × α)) (s : ThrottleState α),
      ∃ l, (calls.foldl (throttleCall timersFirst limit) s).log = s.log ++ l ∧
        l.Sublist calls := by
  intro calls
  induction calls with
  | nil => intro s; exact ⟨[], by simp, List.Sublist.slnil⟩
  | cons c rest ih =>
    intro s
    obtain ⟨l, hl, hsub⟩ := ih (throttleCall timersFirst limit s c)
    rcases throttleCall_log timersFirst limit s c with h | h
    · exact ⟨l, by rw [List.foldl_cons, hl, h], hsub.cons c⟩
    · exact ⟨c :: l, by rw [List.foldl_cons, hl, h]; simp, hsub.cons₂ c⟩

theorem throttle_foldl_cooling {α : Type} (timersFirst : Bool) (limit : Nat) :
    ∀ (calls : List (Nat × α)) (s : ThrottleState α),
      s = ThrottleState.init α ∨ ThrottleCooling (setTimeoutDelay limit) s → calls ≠ [] →
      ThrottleCooling (setTimeoutDelay limit) (calls.foldl (throttleCall timersFirst limit) s) := by
  intro calls
  induction calls with
  | nil => intro s _ h; exact absurd rfl h
  | cons c rest ih =>
    intro s hs _
    have h1 := (throttleCall_step timersFirst limit s c hs).1
    cases rest with
    | nil => exact h1
    | cons d rest2 => exact ih _ (Or.inr h1) (by simp)

/-- The behaviour of `throttle` for every `limit`, in terms of the delay the
cooldown timer really waits. -/
theorem throttle_call_delay {α : Type} (timersFirst : Bool) (limit : Nat)
    (pre : List (Nat × α)) (c : Nat × α) :
    (pre = [] → (throttleCalls timersFirst limit (pre ++ [c])).log = [c]) ∧
    (pre ≠ [] → ∃ T a, (throttleCalls timersFirst limit pre).log.getLast? = some (T, a)) ∧
    (∀ T a, (throttleCalls timersFirst limit pre).log.getLast? = some (T, a) →
      c.1 < T + setTimeoutDelay limit →
      (throttleCalls timersFirst limit (pre ++ [c])).log =
        (throttleCalls timersFirst limit pre).log) ∧
    (∀ T a, (throttleCalls timersFirst limit pre).log.getLast? = some (T, a) →
      T + setTimeoutDelay limit < c.1 →
      (throttleCalls timersFirst limit (pre ++ [c])).log =
        (throttleCalls timersFirst limit pre).log ++ [c]) ∧
    (∀ due fuel,
      (runThrottleTimers due fuel (throttleCalls timersFirst limit (pre ++ [c]))).log =
        (throttleCalls timersFirst limit (pre ++ [c])).log) ∧
    (throttleCalls timersFirst limit (pre ++ [c])).log.Sublist (pre ++ [c]) := by
  have hstate : throttleCalls timersFirst limit pre = ThrottleState.init α ∨
      ThrottleCooling (setTimeoutDelay limit) (throttleCalls timersFirst limit pre) := by
    by_cases hp : pre = []
    · left; rw [hp]; rfl
    · right
      exact throttle_foldl_cooling timersFirst limit pre _ (Or.inl rfl) hp
  have happ : throttleCalls timersFirst limit (pre ++ [c]) =
      throttleCall timersFirst limit (throttleCalls timersFirst limit pre) c := by
    simp [throttleCalls, List.foldl_append]
  have hstep := throttleCall_step timersFirst limit _ c hstate
  rw [happ]
  refine ⟨?_, ?_, hstep.2.2.1, hstep.2.2.2, ?_, ?_⟩
  · intro hp
    apply hstep.2.1
    rw [hp]; rfl
  · intro hp
    obtain ⟨_, T, a, h, _⟩ := throttle_foldl_cooling timersFirst limit pre _ (Or.inl rfl) hp
    exact ⟨T, a, h⟩
  · intro due fuel
    exact runThrottleTimers_log due fuel _
  · rw [← happ]
    obtain ⟨l, hl, hsub⟩ := throttle_foldl_sublist timersFirst limit (pre ++ [c])
      (ThrottleState.init α)
    unfold throttleCalls
    rw [hl]
    simpa [ThrottleState.init] using hsub

/-- C2 (amended). For every limit `L` with `0 < L < 2^31` (the range in which
`setTimeout` waits the delay it is given) and every sequence of calls `pre`
followed by a call `c` (time, arguments): the first call invokes `func` at
once with its own arguments; after any call there is a most recent invoking
call `(T, a)`; if `c` comes strictly less than `limit` after `T` it is dropped;
if it comes strictly more than `limit` after `T` it invokes `func` at once with
its own arguments; timers firing never invoke `func` (a dropped call is not
made up for later); and the invocations are a subsequence of the calls, each at
the time and with the arguments of its call.  This holds for either order of a
timer and a call falling at the same instant, and the order of the call times
is not needed. -/
theorem throttle_call_cases {α : Type} (timersFirst : Bool) (limit : Nat)
    (_hpos : 0 < limit) (hlimit : limit < 2 ^ 31) (pre : List (Nat × α)) (c : Nat × α) :
    (pre = [] → (throttleCalls timersFirst limit (pre ++ [c])).log = [c]) ∧
    (pre ≠ [] → ∃ T a, (throttleCalls timersFirst limit pre).log.getLast? = some (T, a)) ∧
    (∀ T a, (throttleCalls timersFirst limit pre).log.getLast? = some (T, a) →
      c.1 < T + limit →
      (throttleCalls timersFirst limit (pre ++ [c])).log =
        (throttleCalls timersFirst limit pre).log) ∧
    (∀ T a, (throttleCalls timersFirst limit pre).log.getLast? = some (T, a) →
      T + limit < c.1 →
      (throttleCalls timersFirst limit (pre ++ [c])).log =
        (throttleCalls timersFirst limit pre).log ++ [c]) ∧
    (∀ due fuel,
      (runThrottleTimers due fuel (throttleCalls timersFirst limit (pre ++ [c]))).log =
        (throttleCalls timersFirst limit (pre ++ [c])).log) ∧
    (throttleCalls timersFirst limit (pre ++ [c])).log.Sublist (pre ++ [c]) := by
  have hd := setTimeoutDelay_small limit hlimit
  have h := throttle_call_delay timersFirst limit pre c
  rw [hd] at h
  exact h

/-- Witness of C2: calls at t = 0, 10, 50, 150 with limit 100 invoke `func`
exactly twice, at t = 0 and at t = 150, with the arguments of those calls. -/
theorem throttle_call_cases_witness :
    (throttleCalls true 100 ([(0, "a"), (10, "b"), (50, "c")] ++ [(150, "d")])).log =
      [(0, "a"), (150, "d")] := by
  have h := (throttle_call_cases true 100 (by norm_num) (by norm_num)
    [(0, "a"), (10, "b"), (50, "c")]
    (150, "d")).2.2.2.1 0 "a" (by decide) (by decide)
  rw [h]
  decide

/-- Counterexample to C2 as stated: with `limit = 2^31` the call at t = 50
comes strictly less than `limit` after the invoking call at t = 0, yet it is
not dropped: `func` is invoked for it at t = 50.  The cooldown delay overflows
the signed 32-bit range of `setTimeout`, so `inThrottle` is reset at once. -/
theorem throttle_drop_overflow_counterexample :
    (0 < 2147483648) ∧
    (throttleCalls true 2147483648 [(0, "a")]).log.getLast? = some (0, "a") ∧
    50 < 0 + 2147483648 ∧
    (throttleCalls true 2147483648 ([(0, "a")] ++ [(50, "b")])).log = [(0, "a"), (50, "b")] ∧
    (throttleCalls false 2147483648 ([(0, "a")] ++ [(50, "b")])).log = [(0, "a"), (50, "b")] ∧
    (throttleCalls true 2147483648 ([(0, "a")] ++ [(50, "b")])).log ≠
      (throttleCalls true 2147483648 [(0, "a")]).log := by
  decide

/-! ### `isValidEmail` -/

theorem matchItems_nil (s : List Char) : matchItems [] s = true ↔ s = [] := by
  cases s <;> simp [matchItems]

theorem matchItems_one (a : RegexAtom) (rest : List RegexItem) (s : List Char) :
    matchItems (.one a :: rest) s = true ↔
      ∃ c y, s = c :: y ∧ a.test c = true ∧ matchItems rest y = true := by
  cases s with
  | nil => simp [matchItems]
  | cons d t =>
    simp only [matchItems, Bool.and_eq_true]
    constructor
    · rintro ⟨h1, h2⟩
      exact ⟨d, t, rfl, h1, h2⟩
    · rintro ⟨c, y, h, h1, h2⟩
      cases h
      exact ⟨h1, h2⟩

theorem matchItems_plus (a : RegexAtom) (rest : List RegexItem) :
    ∀ s : List Char, matchItems (.plus a :: rest) s = true ↔
      ∃ x y, x ≠ [] ∧ (∀ c ∈ x, a.test c = true) ∧ s = x ++ y ∧ matchItems rest y = true := by
  intro s
  induction s with
  | nil =>
    simp only [matchItems]
    constructor
    · intro h; cases h
    · rintro ⟨x, y, hne, _, hs, _⟩
      cases x with
      | nil => exact absurd rfl hne
      | cons d x => cases hs
  | cons c s ih =>
    simp only [matchItems, Bool.and_eq_true, Bool.or_eq_true]
    constructor
    · rintro ⟨hc, h | h⟩
      · obtain ⟨x, y, _, hx, rfl, hy⟩ := ih.1 h
        exact ⟨c :: x, y, by simp, by simpa [hc] using hx, rfl, hy⟩
      · exact ⟨[c], s, by simp, by simpa using hc, rfl, h⟩
    · rintro ⟨x, y, hne, hx, hs, hy⟩
      cases x with
      | nil => exact absurd rfl hne
      | cons d x =>
        simp only [List.cons_append, List.cons.injEq] at hs
        obtain ⟨rfl, rfl⟩ := hs
        refine ⟨hx c (by simp), ?_⟩
        by_cases hx0 : x = []
        · right; simpa [hx0] using hy
        · left
          exact ih.2 ⟨x, y, hx0, fun e he => hx e (by simp [he]), rfl, hy⟩

theorem isValidEmail_toList (s : String) : isValidEmail s = true ↔
    ∃ l a b : List Char, l ≠ [] ∧ a ≠ [] ∧ b ≠ [] ∧
      (∀ c ∈ l ++ a ++ b, isJsWhitespace c = false ∧ c ≠ '@') ∧
      s.toList = l ++ '@' :: (a ++ '.' :: b) := by
  unfold isValidEmail emailPattern
  simp only [matchItems_plus, matchItems_one, matchItems_nil]
  constructor
  · rintro ⟨l, _, hl, hlc, hs, c1, _, rfl, hc1, a, _, ha, hac, rfl, c2, _, rfl, hc2, b, _, hb, hbc, rfl, rfl⟩
    refine ⟨l, a, b, hl, ha, hb, ?_, ?_⟩
    · intro c hc
      simp only [List.mem_append] at hc
      rcases hc with (hc | hc) | hc
      · simpa [RegexAtom.test] using hlc c hc
      · simpa [RegexAtom.test] using hac c hc
      · simpa [RegexAtom.test] using hbc c hc
    · simp [RegexAtom.test] at hc1 hc2
      subst hc1 hc2
      simpa using hs
  · rintro ⟨l, a, b, hl, ha, hb, hc, hs⟩
    refine ⟨l, _, hl, ?_, hs, '@', _, rfl, by simp [RegexAtom.test], a, _, ha, ?_, rfl, '.', _, rfl,
      by simp [RegexAtom.test], b, [], hb, ?_, by simp, rfl⟩
    · intro c h; simpa [RegexAtom.test] using hc c (by simp [h])
    · intro c h; simpa [RegexAtom.test] using hc c (by simp [h])
    · intro c h; simpa [RegexAtom.test] using hc c (by simp [h])

/-- C3. For every string `s`, `isValidEmail(s)` is true if and only if
`s = local ++ "@" ++ a ++ "." ++ b` for some non-empty strings `local`, `a`
and `b` none of which contains a white space character or `@`; and a string
that is accepted has exactly one `@` and no white space. -/
theorem isValidEmail_iff (s : String) :
    (isValidEmail s = true ↔
      ∃ l a b : String, l ≠ "" ∧ a ≠ "" ∧ b ≠ "" ∧
        (∀ c ∈ l.toList ++ a.toList ++ b.toList, isJsWhitespace c = false ∧ c ≠ '@') ∧
        s = l ++ "@" ++ a ++ "." ++ b) ∧
    (isValidEmail s = true →
      s.toList.count '@' = 1 ∧ ∀ c ∈ s.toList, isJsWhitespace c = false) := by
  have hne : ∀ x : List Char, x ≠ [] → String.mk x ≠ "" := by
    intro x hx h
    apply hx
    have := congrArg String.data h
    simpa using this
  constructor
  · rw [isValidEmail_toList]
    constructor
    · rintro ⟨l, a, b, hl, ha, hb, hc, hs⟩
      refine ⟨⟨l⟩, ⟨a⟩, ⟨b⟩, hne l hl, hne a ha, hne b hb, hc, ?_⟩
      apply String.ext
      simpa using hs
    · rintro ⟨l, a, b, hl, ha, hb, hc, hs⟩
      refine ⟨l.toList, a.toList, b.toList, ?_, ?_, ?_, hc, ?_⟩
      · intro h; apply hl; apply String.ext; simpa using h
      · intro h; apply ha; apply String.ext; simpa using h
      · intro h; apply hb; apply String.ext; simpa using h
      · rw [hs]; simp
  · intro h
    obtain ⟨l, a, b, _, _, _, hc, hs⟩ := (isValidEmail_toList s).1 h
    have hcnt : ∀ x : List Char, (∀ c ∈ x, c ≠ '@') → x.count '@' = 0 := by
      intro x hx
      rw [List.count_eq_zero]
      intro hmem
      exact hx _ hmem rfl
    constructor
    · rw [hs]
      have h1 := hcnt l (fun c hc2 => (hc c (by simp [hc2])).2)
      have h2 := hcnt a (fun c hc2 => (hc c (by simp [hc2])).2)
      have h3 := hcnt b (fun c hc2 => (hc c (by simp [hc2])).2)
      simp [List.count_cons, h1, h2, h3]
    · intro c hmem
      rw [hs] at hmem
      simp only [List.mem_append, List.mem_cons] at hmem
      rcases hmem with h1 | rfl | h1 | rfl | h1
      · exact (hc c (by simp [h1])).1
      · decide
      · exact (hc c (by simp [h1])).1
      · decide
      · exact (hc c (by simp [h1])).1

/-- Witness of C3: `"a@b.co"` is accepted; `"a@b"`, `"a b@c.com"` and
`"@b.com"` are rejected. -/
theorem isValidEmail_iff_witness :
    isValidEmail "a@b.co" = true ∧ isValidEmail "a@b" = false ∧
    isValidEmail "a b@c.com" = false ∧ isValidEmail "@b.com" = false := by
  refine ⟨((isValidEmail_iff "a@b.co").1).2 ⟨"a", "b", "co", by decide, by decide, by decide,
    by decide, by decide⟩, by decide, by decide, by decide⟩

/-! ### Form validation -/

theorem foldl_checkRequired_isValid (l : List (Nat × FormField)) :
    ∀ st : SubmitState, (l.foldl checkRequired st).isValid =
      (st.isValid && !l.any (fun p => p.2.required && (jsTrim p.2.value == ""))) := by
  induction l with
  | nil => intro st; simp
  | cons p rest ih =>
    intro st
    rw [List.foldl_cons, ih]
    unfold checkRequired
    by_cases h : (p.2.required && (jsTrim p.2.value == "")) = true
    · simp [h]
    · simp only [Bool.not_eq_true] at h
      simp [h]

theorem foldl_checkEmail_isValid (l : List (Nat × FormField)) :
    ∀ st : SubmitState, (l.foldl checkEmail st).isValid =
      (st.isValid &&
        !l.any (fun p => p.2.emailInput && p.2.value != "" && !isValidEmail p.2.value)) := by
  induction l with
  | nil => intro st; simp
  | cons p rest ih =>
    intro st
    rw [List.foldl_cons, ih]
    unfold checkEmail
    by_cases h : (p.2.emailInput && p.2.value != "" && !isValidEmail p.2.value) = true
    · simp [h]
    · simp only [Bool.not_eq_true] at h
      simp [h]

theorem foldl_checkRequired_pass (l : List (Nat × FormField))
    (h : l.any (fun p => p.2.required && (jsTrim p.2.value == "")) = false) :
    ∀ st : SubmitState, l.foldl checkRequired st = st := by
  induction l with
  | nil => intro st; rfl
  | cons p rest ih =>
    intro st
    simp only [List.any_cons, Bool.or_eq_false_iff] at h
    rw [List.foldl_cons]
    have : checkRequired st p = st := by
      unfold checkRequired
      rw [if_neg (by simp [h.1])]
    rw [this]
    exact ih h.2 st

theorem foldl_checkEmail_pass (l : List (Nat × FormField))
    (h : l.any (fun p => p.2.emailInput && p.2.value != "" && !isValidEmail p.2.value) = false) :
    ∀ st : SubmitState, l.foldl checkEmail st = st := by
  induction l with
  | nil => intro st; rfl
  | cons p rest ih =>
    intro st
    simp only [List.any_cons, Bool.or_eq_false_iff] at h
    rw [List.foldl_cons]
    have : checkEmail st p = st := by
      unfold checkEmail
      rw [if_neg (by simp [h.1])]
    rw [this]
    exact ih h.2 st

theorem any_enumFrom_snd {α : Type} (q : α → Bool) (l : List α) :
    ∀ n : Nat, (l.enumFrom n).any (fun p => q p.2) = l.any q := by
  induction l with
  | nil => intro n; rfl
  | cons a t ih => intro n; simp [List.enumFrom, ih]

theorem any_enum_snd {α : Type} (l : List α) (q : α → Bool) :
    l.enum.any (fun p => q p.2) = l.any q :=
  any_enumFrom_snd q l 0

/-- C4 (amended). For every validated form and every assignment of values to
its fields, the submit handler calls `preventDefault` if and only if, among the
fields its clearing step leaves in the form (those that neither carry the class
`form-error` nor lie inside an element carrying it), some required field has a
value that is empty after trimming or some email input has a non-empty value
that `isValidEmail` rejects; and when no such field fails, `preventDefault` is
not called and the form holds no error message afterwards. -/
theorem submitHandler_prevents_iff (form : Form) :
    ((submitHandler form).2 = true ↔
      (∃ f ∈ form.fields, f.removedByClear = false ∧ failsRequired f) ∨
      (∃ f ∈ form.fields, f.removedByClear = false ∧ failsEmail f)) ∧
    ((∀ f ∈ form.fields, f.removedByClear = false → ¬ failsRequired f ∧ ¬ failsEmail f) →
      (submitHandler form).2 = false ∧ (submitHandler form).1.errors = []) := by
  have hreq : ((form.fields.filter (fun f => !f.removedByClear)).enum.any
      (fun p => p.2.required && (jsTrim p.2.value == ""))) = true ↔
      ∃ f ∈ form.fields, f.removedByClear = false ∧ failsRequired f := by
    rw [any_enum_snd (form.fields.filter (fun f => !f.removedByClear))
      (fun f : FormField => f.required && (jsTrim f.value == ""))]
    simp [failsRequired, and_assoc]
  have hem : ((form.fields.filter (fun f => !f.removedByClear)).enum.any
      (fun p => p.2.emailInput && p.2.value != "" && !isValidEmail p.2.value)) = true ↔
      ∃ f ∈ form.fields, f.removedByClear = false ∧ failsEmail f := by
    rw [any_enum_snd (form.fields.filter (fun f => !f.removedByClear))
      (fun f : FormField => f.emailInput && f.value != "" && !isValidEmail f.value)]
    simp [failsEmail, and_assoc]
  constructor
  · rw [← hreq, ← hem]
    simp only [submitHandler, foldl_checkEmail_isValid, foldl_checkRequired_isValid]
    simp
  · intro hall
    have h1 : ((form.fields.filter (fun f => !f.removedByClear)).enum.any
        (fun p => p.2.required && (jsTrim p.2.value == ""))) = false := by
      rw [← Bool.not_eq_true, hreq]
      rintro ⟨f, hf, hk, h⟩
      exact (hall f hf hk).1 h
    have h2 : ((form.fields.filter (fun f => !f.removedByClear)).enum.any
        (fun p => p.2.emailInput && p.2.value != "" && !isValidEmail p.2.value)) = false := by
      rw [← Bool.not_eq_true, hem]
      rintro ⟨f, hf, hk, h⟩
      exact (hall f hf hk).2 h
    simp only [submitHandler, foldl_checkRequired_pass _ h1, foldl_checkEmail_pass _ h2]
    simp

/-- Witness of C4: a form whose required field holds only blanks is stopped,
and a form whose fields all pass is submitted without any error message. -/
theorem submitHandler_prevents_iff_witness :
    (submitHandler { fields := [{ required := true, emailInput := false, value := "  ",
                                  classes := [], insideFormError := false }],
                     errors := [] }).2 = true ∧
    (submitHandler { fields := [{ required := true, emailInput := true, value := "a@b.co",
                                  classes := [], insideFormError := false }],
                     errors := [{ field := 0, message := "This field is required" }] }) =
      ({ fields := [{ required := true, emailInput := true, value := "a@b.co",
                      classes := [], insideFormError := false }],
         errors := [] }, false) := by
  refine ⟨((submitHandler_prevents_iff _).1).2
    (Or.inl ⟨_, List.mem_singleton.2 rfl, rfl, rfl, by decide⟩), by decide⟩

/-- Counterexample to C4 as stated: the form whose only field is required,
empty and carries the class `form-error` has a required field with an empty
value, yet the handler does not call `preventDefault`: its clearing step
removed the field before the required fields were looked up. -/
theorem submitHandler_errorClass_counterexample :
    (∃ f ∈ errorClassForm.fields, failsRequired f) ∧
    (submitHandler errorClassForm).2 = false ∧
    ¬ ((submitHandler errorClassForm).2 = true ↔
        (∃ f ∈ errorClassForm.fields, failsRequired f) ∨
        (∃ f ∈ errorClassForm.fields, failsEmail f)) := by
  have h1 : ∃ f ∈ errorClassForm.fields, failsRequired f :=
    ⟨_, List.mem_singleton.2 rfl, rfl, by decide⟩
  have h2 : (submitHandler errorClassForm).2 = false := by decide
  refine ⟨h1, h2, ?_⟩
  intro h
  have := h.2 (Or.inl h1)
  rw [h2] at this
  cases this

/-! ### The document -/

theorem hasClass_removeClass (p : Page) (i j : Nat) (c d : String) :
    (p.removeClass i c).hasClass j d =
      (if i = j ∧ c = d then false else p.hasClass j d) := by
  unfold Page.removeClass Page.hasClass
  by_cases hij : i = j
  · subst hij
    simp only [List.getElem?_modify_eq]
    cases h : p.elems[i]? with
    | none => simp
    | some e =>
      by_cases hcd : c = d
      · subst hcd; simp [classListRemove]
      · have hdc : ¬ d = c := fun h => hcd h.symm
        simp [classListRemove, hcd, hdc]
  · simp [List.getElem?_modify_ne _ _ hij, hij]

theorem hasClass_addClass (p : Page) (i j : Nat) (c d : String) :
    (p.addClass i c).hasClass j d =
      (p.hasClass j d || (decide (i = j) && decide (c = d) && decide (j < p.elems.length))) := by
  unfold Page.addClass Page.hasClass
  by_cases hij : i = j
  · subst hij
    simp only [List.getElem?_modify_eq]
    cases h : p.elems[i]? with
    | none =>
      have : ¬ i < p.elems.length := by
        intro hlt
        rw [List.getElem?_eq_getElem hlt] at h
        cases h
      simp [this]
    | some e =>
      have hlt : i < p.elems.length := by
        by_contra hge
        rw [List.getElem?_eq_none (by omega)] at h
        cases h
      by_cases hcd : c = d
      · subst hcd
        by_cases hm : c ∈ e.classes <;> simp [classListAdd, hm, hlt]
      · have hdc : ¬ d = c := fun h => hcd h.symm
        by_cases hm : c ∈ e.classes <;> simp [classListAdd, hm, hcd, hdc]
  · simp [List.getElem?_modify_ne _ _ hij, hij]

theorem hasClass_setAttribute (p : Page) (i j : Nat) (n v d : String) :
    (p.setAttribute i n v).hasClass j d = p.hasClass j d := by
  unfold Page.setAttribute Page.hasClass
  by_cases hij : i = j
  · subst hij
    simp only [List.getElem?_modify_eq]
    cases h : p.elems[i]? <;> simp
  · simp [List.getElem?_modify_ne _ _ hij]

theorem removeClass_length (p : Page) (i : Nat) (c : String) :
    (p.removeClass i c).elems.length = p.elems.length := by
  simp [Page.removeClass]

theorem closestFrom_hasClass (p : Page) (cls : String) :
    ∀ (fuel i b : Nat), p.closestFrom cls fuel i = some b → p.hasClass b cls = true := by
  intro fuel
  induction fuel with
  | zero => intro i b h; simp [Page.closestFrom] at h
  | succ f ih =>
    intro i b h
    rw [Page.closestFrom] at h
    cases he : p.elems[i]? with
    | none => rw [he] at h; simp at h
    | some e =>
      rw [he] at h
      simp only at h
      by_cases hc : e.classes.contains cls = true
      · rw [if_pos hc] at h
        cases h
        simp [Page.hasClass, he]
        simpa using hc
      · rw [if_neg hc] at h
        cases hp : e.parent with
        | none => rw [hp] at h; simp at h
        | some q => rw [hp] at h; exact ih q b h

theorem hasClass_lt (p : Page) (i : Nat) (c : String) (h : p.hasClass i c = true) :
    i < p.elems.length := by
  by_contra hge
  have : p.elems[i]? = none := List.getElem?_eq_none (by omega)
  simp [Page.hasClass, this] at h

/-- Effect of the loop closing every accordion item other than `item`. -/
theorem closeOthers_hasClass (item : Nat) (l : List Nat) :
    ∀ (q : Page) (j : Nat) (d : String),
      (l.foldl (fun q i => if i != item then q.removeClass i "active" else q) q).hasClass j d =
        (if j ∈ l ∧ j ≠ item ∧ d = "active" then false else q.hasClass j d) := by
  induction l with
  | nil => intro q j d; simp
  | cons a rest ih =>
    intro q j d
    rw [List.foldl_cons, ih]
    by_cases hmem : j ∈ rest ∧ j ≠ item ∧ d = "active"
    · have : j ∈ a :: rest ∧ j ≠ item ∧ d = "active" := ⟨List.mem_cons_of_mem _ hmem.1, hmem.2⟩
      rw [if_pos hmem, if_pos this]
    · rw [if_neg hmem]
      by_cases ha : a = item
      · subst ha
        have : ¬ (j ∈ a :: rest ∧ j ≠ a ∧ d = "active") := by
          rintro ⟨h1, h2, h3⟩
          rcases List.mem_cons.1 h1 with h | h
          · exact h2 h
          · exact hmem ⟨h, h2, h3⟩
        rw [if_neg this]
        simp
      · have hne : (a != item) = true := by simpa using ha
        simp only [hne, if_true]
        rw [hasClass_removeClass]
        by_cases hcase : a = j ∧ "active" = d
        · obtain ⟨rfl, rfl⟩ := hcase
          rw [if_pos ⟨rfl, rfl⟩, if_pos ⟨List.mem_cons_self _ _, ha, rfl⟩]
        · rw [if_neg hcase]
          have : ¬ (j ∈ a :: rest ∧ j ≠ item ∧ d = "active") := by
            rintro ⟨h1, h2, h3⟩
            rcases List.mem_cons.1 h1 with h | h
            · exact hcase ⟨h.symm, h3.symm⟩
            · exact hmem ⟨h, h2, h3⟩
          rw [if_neg this]

theorem closeOthers_length (item : Nat) (l : List Nat) :
    ∀ q : Page,
      (l.foldl (fun q i => if i != item then q.removeClass i "active" else q) q).elems.length =
        q.elems.length := by
  induction l with
  | nil => intro q; rfl
  | cons a rest ih =>
    intro q
    rw [List.foldl_cons, ih]
    split
    · exact removeClass_length q a "active"
    · rfl

theorem mem_querySelectorAll (p : Page) (cls : String) (i : Nat) :
    i ∈ p.querySelectorAll cls ↔ p.hasClass i cls = true := by
  unfold Page.querySelectorAll
  rw [List.mem_filter, List.mem_range]
  exact ⟨fun h => h.2, fun h => ⟨hasClass_lt p i cls h, h⟩⟩

/-- C6. For every document and every header whose enclosing `.accordion-item`
is `b`, whatever items were active before, the click handler of the header
ends without error, after it no `.accordion-item` other than `b` carries
`active`, `b` carries `active` exactly when it did not before, and hence at
most one `.accordion-item` is active. -/
theorem accordionClick_exclusive (p : Page) (header b : Nat)
    (hb : p.closest "accordion-item" header = some b) :
    ∃ q, accordionClick p header = .ok q ∧
      (∀ i, i ≠ b → q.hasClass i "accordion-item" = true → q.hasClass i "active" = false) ∧
      q.hasClass b "active" = !p.hasClass b "active" ∧
      (∀ i j, q.hasClass i "accordion-item" = true → q.hasClass i "active" = true →
        q.hasClass j "accordion-item" = true → q.hasClass j "active" = true → i = j) := by
  have hbitem : p.hasClass b "accordion-item" = true := closestFrom_hasClass p _ _ _ _ hb
  have hblt : b < p.elems.length := hasClass_lt p b _ hbitem
  have hne : ¬ ("active" = "accordion-item") := by decide
  have hothers : ∀ q : Page, accordionClick p header = .ok q →
      ∀ i, i ≠ b → q.hasClass i "accordion-item" = true → q.hasClass i "active" = false := by
    intro q hq i hi hitem
    simp only [accordionClick, hb] at hq
    cases hq
    rw [hasClass_setAttribute] at hitem ⊢
    have hib : ¬ b = i := fun h => hi h.symm
    cases hact : p.hasClass b "active" <;>
      simp only [hact, if_true, Bool.false_eq_true, if_false] at hitem ⊢
    · rw [hasClass_addClass, closeOthers_hasClass, if_neg (by simp [hne])] at hitem
      simp only [hne, decide_False, Bool.and_false, Bool.false_and, Bool.or_false] at hitem
      rw [hasClass_addClass, closeOthers_hasClass,
        if_pos ⟨(mem_querySelectorAll p _ i).2 hitem, hi, rfl⟩]
      simp [hib]
    · rw [hasClass_removeClass, if_neg (by simp [hne]), closeOthers_hasClass,
        if_neg (by simp [hne])] at hitem
      rw [hasClass_removeClass, if_neg (by simp [hib]), closeOthers_hasClass,
        if_pos ⟨(mem_querySelectorAll p _ i).2 hitem, hi, rfl⟩]
  have hq : ∃ q, accordionClick p header = .ok q := by
    simp [accordionClick, hb]
  obtain ⟨q, hq⟩ := hq
  refine ⟨q, hq, hothers q hq, ?_, ?_⟩
  · have hq2 := hq
    simp only [accordionClick, hb] at hq2
    cases hq2
    rw [hasClass_setAttribute]
    cases hact : p.hasClass b "active"
    · simp only [Bool.false_eq_true, if_false]
      rw [hasClass_addClass, closeOthers_length]
      simp [hblt]
    · simp only [if_true]
      rw [hasClass_removeClass]
      simp
  · intro i j hi1 hi2 hj1 hj2
    have hib : i = b := by
      by_contra h
      rw [hothers q hq i h hi1] at hi2
      cases hi2
    have hjb : j = b := by
      by_contra h
      rw [hothers q hq j h hj1] at hj2
      cases hj2
    rw [hib, hjb]

/-- Witness of C6: with item A (element 0) open and item B (element 2) closed,
a click on the header of B (element 3) leaves A closed and B open. -/
theorem accordionClick_exclusive_witness :
    ((accordionClick accordionPage 3).toOption.map
        (fun q => (q.hasClass 0 "active", q.hasClass 2 "active")) = some (false, true)) ∧
    ∃ q, accordionClick accordionPage 3 = .ok q ∧
      (∀ i, i ≠ 2 → q.hasClass i "accordion-item" = true → q.hasClass i "active" = false) ∧
      q.hasClass 2 "active" = !accordionPage.hasClass 2 "active" ∧
      (∀ i j, q.hasClass i "accordion-item" = true → q.hasClass i "active" = true →
        q.hasClass j "accordion-item" = true → q.hasClass j "active" = true → i = j) :=
  ⟨by decide, accordionClick_exclusive accordionPage 3 2 (by decide)⟩

/-! ### Modals -/

theorem modify_idem {α : Type} (f : α → α) (hf : ∀ a, f (f a) = f a) (i : Nat) (l : List α) :
    (l.modify f i).modify f i = l.modify f i := by
  apply List.ext_getElem?
  intro j
  by_cases hij : i = j
  · subst hij
    simp only [List.getElem?_modify_eq]
    cases l[i]? <;> simp [hf]
  · simp [List.getElem?_modify_ne _ _ hij]

theorem classListRemove_idem (c : String) (l : List String) :
    classListRemove c (classListRemove c l) = classListRemove c l := by
  simp [classListRemove]

/-- C7. For every page and every modal element, `closeModal(modal)` performed
after `openModal(modal)` leaves the modal without the class `active` and
`document.body.style.overflow` equal to `''`; and `closeModal` is idempotent:
calling it twice leaves the same page as calling it once. -/
theorem closeModal_after_openModal (p : Page) (modal : Nat) :
    (closeModal (openModal p modal) modal).hasClass modal "active" = false ∧
    (closeModal (openModal p modal) modal).bodyOverflow = "" ∧
    closeModal (closeModal p modal) modal = closeModal p modal := by
  refine ⟨?_, rfl, ?_⟩
  · have h : ∀ q : Page, (closeModal q modal).hasClass modal "active" = false := by
      intro q
      have : (closeModal q modal).hasClass modal "active" =
          (q.removeClass modal "active").hasClass modal "active" := rfl
      rw [this, hasClass_removeClass]
      simp
    exact h _
  · unfold closeModal Page.removeClass
    simp only [Page.mk.injEq, and_true]
    exact modify_idem _ (fun e => by simp [classListRemove_idem]) modal p.elems

/-- Witness of C7: on a page whose modal (element 0) holds a button, opening
and then closing the modal, once or twice, gives the page with the modal
inactive and the scroll lock removed. -/
theorem closeModal_after_openModal_witness :
    (openModal modalPage 0).hasClass 0 "active" = true ∧
    (openModal modalPage 0).bodyOverflow = "hidden" ∧
    (closeModal (openModal modalPage 0) 0).hasClass 0 "active" = false ∧
    (closeModal (openModal modalPage 0) 0).bodyOverflow = "" ∧
    closeModal (closeModal (openModal modalPage 0) 0) 0 = closeModal (openModal modalPage 0) 0 :=
  ⟨by decide, by decide, (closeModal_after_openModal modalPage 0).1,
    (closeModal_after_openModal modalPage 0).2.1,
    (closeModal_after_openModal (openModal modalPage 0) 0).2.2⟩

/-! ### Absent elements -/

/-- The tab handler never throws, and leaves the page alone when the target
panel is absent. -/
theorem tabClick_guarded (p : Page) (button : Nat) :
    (∃ q, tabClick p button = .ok q) ∧
    (p.getElementById ((p.getAttribute button "data-tab-target").getD "null") = none →
      tabClick p button = .ok p) := by
  unfold tabClick
  cases h : p.getElementById ((p.getAttribute button "data-tab-target").getD "null") <;>
    simp [h]

/-- The modal handlers never throw, and leave the page alone when the modal is
absent. -/
theorem modalClick_guarded (p : Page) (i : Nat) :
    (∃ q, modalOpenClick p i = .ok q) ∧ (∃ q, modalCloseClick p i = .ok q) ∧
    (p.getElementById ((p.getAttribute i "data-modal-open").getD "null") = none →
      modalOpenClick p i = .ok p) ∧
    (p.closest "modal" i = none → modalCloseClick p i = .ok p) := by
  unfold modalOpenClick modalCloseClick
  cases h1 : p.getElementById ((p.getAttribute i "data-modal-open").getD "null") <;>
    cases h2 : p.closest "modal" i <;> simp [h1, h2]

/-- The accordion handler throws whenever the clicked header has no enclosing
`.accordion-item`. -/
theorem accordionClick_absent_item (p : Page) (header : Nat)
    (h : p.closest "accordion-item" header = none) :
    accordionClick p header =
      .error "TypeError: Cannot read properties of null (reading 'classList')" := by
  simp [accordionClick, h]

/-- C9 (failing input). On the document made of a single `.accordion-header`
with no enclosing `.accordion-item`, the click handler registered by
`initAccordion` throws a `TypeError` instead of returning. -/
theorem accordionClick_orphan_header_throws :
    orphanHeaderPage.querySelectorAll "accordion-header" = [0] ∧
    orphanHeaderPage.closest "accordion-item" 0 = none ∧
    accordionClick orphanHeaderPage 0 =
      .error "TypeError: Cannot read properties of null (reading 'classList')" :=
  ⟨by decide, by decide, rfl⟩

/-! ### External links -/

/-- What `initExternalLinks` does to one anchor: it gets `target="_blank"` and
`rel="noopener noreferrer"` exactly when its `href` attribute begins with
`http` and its resolved URL does not contain the page's hostname anywhere. -/
theorem initExternalLinks_marks (hostname : String) (link : Anchor)
    (h1 : link.matchesHttp = true) (h2 : jsIncludes link.href hostname = false) :
    initExternalLinks hostname [link] =
      [{ link with target := some "_blank", rel := some "noopener noreferrer" }] := by
  simp [initExternalLinks, h1, h2]

/-- C8 (failing input). On a page served from `example.com`, the anchor
`https://evil.test/?ref=example.com` has an `href` beginning with `http` and a
URL host, `evil.test`, different from the page's host, and `initExternalLinks`
leaves it without `target` and `rel`. -/
theorem initExternalLinks_misses_foreignLink :
    foreignLink.matchesHttp = true ∧ foreignLink.hostname ≠ "example.com" ∧
    initExternalLinks "example.com" [foreignLink] = [foreignLink] ∧
    (initExternalLinks "example.com" [foreignLink]).map (fun a => (a.target, a.rel)) =
      [(none, none)] := by
  decide

/-! ### Theme preference -/

theorem getItem_setItem (key value : String) :
    ∀ storage : List (String × String), getItem (setItem storage key value) key = some value := by
  intro storage
  unfold setItem
  split
  · rename_i h
    induction storage with
    | nil => simp at h
    | cons kv rest ih =>
      by_cases hk : kv.1 = key
      · simp [getItem, hk]
      · have hr : rest.any (fun kv => kv.1 == key) = true := by
          simpa [hk] using h
        have := ih hr
        simp only [getItem, List.map_cons] at this ⊢
        rw [List.find?_cons_of_neg _ (by simp [hk])]
        exact this
  · rename_i h
    have hnone : storage.find? (fun kv => kv.1 == key) = none := by
      rw [List.find?_eq_none]
      intro x hx hxk
      apply h
      rw [List.any_eq_true]
      exact ⟨x, hx, hxk⟩
    simp [getItem, List.find?_append, hnone]

theorem themeToggleClick_stored (s : ThemeState) :
    getItem (themeToggleClick s).storage "theme" = (themeToggleClick s).dataTheme := by
  simp [themeToggleClick, getItem_setItem]

theorem themeAfterClicks_succ (s : ThemeState) (k : Nat) :
    themeAfterClicks s (k + 1) = themeToggleClick (themeAfterClicks s k) := by
  simp [themeAfterClicks, Function.iterate_succ_apply']

/-- C10. For every stored preference that is absent, `"light"` or `"dark"`,
`initThemePreferences` applies the stored value (`"light"` when absent) as
`data-theme`; and after `k >= 1` clicks on the toggle `data-theme` is that
initial value when `k` is even and the other of the two values when `k` is
odd, and the value stored under the key `theme` equals the applied
`data-theme`. -/
theorem theme_after_clicks (s : ThemeState)
    (h : getItem s.storage "theme" = none ∨ getItem s.storage "theme" = some "light" ∨
      getItem s.storage "theme" = some "dark") :
    (initThemePreferences s).dataTheme = some ((getItem s.storage "theme").getD "light") ∧
    ∀ k : Nat, 1 ≤ k →
      (themeAfterClicks s k).dataTheme =
        some (if k % 2 = 0 then (getItem s.storage "theme").getD "light"
              else otherTheme ((getItem s.storage "theme").getD "light")) ∧
      getItem (themeAfterClicks s k).storage "theme" = (themeAfterClicks s k).dataTheme := by
  have hinit : (initThemePreferences s).dataTheme = some ((getItem s.storage "theme").getD "light") := by
    rcases h with h | h | h <;> simp [initThemePreferences, h]
  have hval : (getItem s.storage "theme").getD "light" = "light" ∨
      (getItem s.storage "theme").getD "light" = "dark" := by
    rcases h with h | h | h <;> simp [h]
  have hall : ∀ k : Nat, (themeAfterClicks s k).dataTheme =
      some (if k % 2 = 0 then (getItem s.storage "theme").getD "light"
            else otherTheme ((getItem s.storage "theme").getD "light")) := by
    intro k
    induction k with
    | zero => simpa [themeAfterClicks] using hinit
    | succ n ih =>
      rw [themeAfterClicks_succ]
      simp only [themeToggleClick, ih]
      rcases Nat.mod_two_eq_zero_or_one n with hn | hn
      · have hn1 : (n + 1) % 2 = 1 := by omega
        rcases hval with hv | hv <;> simp [hn, hn1, hv, otherTheme]
      · have hn1 : (n + 1) % 2 = 0 := by omega
        rcases hval with hv | hv <;> simp [hn, hn1, hv, otherTheme]
  refine ⟨hinit, ?_⟩
  intro k hk
  refine ⟨hall k, ?_⟩
  obtain ⟨n, rfl⟩ : ∃ n, k = n + 1 := ⟨k - 1, by omega⟩
  rw [themeAfterClicks_succ]
  exact themeToggleClick_stored _

/-- Witness of C10: with nothing stored, the theme is `light` at first, `dark`
after one click and `light` again after two, and it is stored each time. -/
theorem theme_after_clicks_witness :
    (initThemePreferences { dataTheme := none, storage := [] }).dataTheme = some "light" ∧
    (themeAfterClicks { dataTheme := none, storage := [] } 1).dataTheme = some "dark" ∧
    getItem (themeAfterClicks { dataTheme := none, storage := [] } 1).storage "theme" = some "dark" ∧
    (themeAfterClicks { dataTheme := none, storage := [] } 2).dataTheme = some "light" ∧
    getItem (themeAfterClicks { dataTheme := none, storage := [] } 2).storage "theme" = some "light" := by
  have h := theme_after_clicks { dataTheme := none, storage := [] } (Or.inl rfl)
  have h1 := h.2 1 (by decide)
  have h2 := h.2 2 (by decide)
  refine ⟨h.1, ?_, ?_, ?_, ?_⟩
  · rw [h1.1]; decide
  · rw [h1.2, h1.1]; decide
  · rw [h2.1]; decide
  · rw [h2.2, h2.1]; decide

/-! ### Counter animation -/

theorem roundHalfEven_error (y : ℚ) : |(roundHalfEven y : ℚ) - y| ≤ 1 / 2 := by
  have h1 := Int.floor_le y
  have h2 := Int.lt_floor_add_one y
  unfold roundHalfEven
  simp only
  rw [abs_le]
  split_ifs with ha hb hc
  · constructor <;> linarith
  · push_cast; constructor <;> linarith
  · constructor <;> linarith
  · push_cast; constructor <;> linarith

theorem roundBinary64_error (x : ℚ) (hx : 0 < x) :
    |roundBinary64 x - x| ≤ 1 / 2 ^ 53 * x := by
  have hne : x ≠ 0 := ne_of_gt hx
  have hnlt : ¬ x < 0 := not_lt.2 hx.le
  simp only [roundBinary64, hne, hnlt, if_false, roundPos]
  set e := Int.log 2 x with he
  have hle : (2 : ℚ) ^ e ≤ x := Int.zpow_log_le_self (by norm_num) hx
  have hulp : (0 : ℚ) < 2 ^ (e - 52) := by positivity
  have herr := roundHalfEven_error (x / 2 ^ (e - 52))
  have hx' : x = x / 2 ^ (e - 52) * 2 ^ (e - 52) := by
    field_simp
  have : (roundHalfEven (x / 2 ^ (e - 52)) : ℚ) * 2 ^ (e - 52) - x =
      ((roundHalfEven (x / 2 ^ (e - 52)) : ℚ) - x / 2 ^ (e - 52)) * 2 ^ (e - 52) := by
    rw [sub_mul, ← hx']
  rw [this, abs_mul, abs_of_pos hulp]
  have h2 : (2 : ℚ) ^ (e - 52) = 2 ^ e / 2 ^ 52 := by
    rw [zpow_sub₀ (by norm_num)]
    norm_num
  calc |(roundHalfEven (x / 2 ^ (e - 52)) : ℚ) - x / 2 ^ (e - 52)| * 2 ^ (e - 52)
      ≤ 1 / 2 * 2 ^ (e - 52) := by
        apply mul_le_mul_of_nonneg_right herr hulp.le
    _ = 1 / 2 ^ 53 * 2 ^ e := by rw [h2]; ring
    _ ≤ 1 / 2 ^ 53 * x := by
        apply mul_le_mul_of_nonneg_left hle (by positivity)

theorem updateCounter_mono (rnd : ℚ → ℚ) (target increment : ℚ) :
    ∀ (frames : Nat) (current : ℚ) (r : List ℚ),
      updateCounter rnd target increment frames current = some r →
      updateCounter rnd target increment (frames + 1) current = some r := by
  intro frames
  induction frames with
  | zero => intro c r h; simp [updateCounter] at h
  | succ k ih =>
    intro c r h
    rw [updateCounter] at h ⊢
    split at h
    · rename_i hlt
      rw [if_pos hlt]
      cases hrec : updateCounter rnd target increment k (rnd (c + increment)) with
      | none => rw [hrec] at h; simp at h
      | some r2 =>
        rw [hrec] at h
        rw [ih _ _ hrec]
        exact h
    · rename_i hlt
      rw [if_neg hlt]
      exact h

theorem updateCounter_mono_le (rnd : ℚ → ℚ) (target increment : ℚ) (frames : Nat) (current : ℚ)
    (r : List ℚ) (h : updateCounter rnd target increment frames current = some r) :
    ∀ more : Nat, updateCounter rnd target increment (frames + more) current = some r := by
  intro more
  induction more with
  | zero => exact h
  | succ k ih => exact updateCounter_mono rnd target increment _ _ _ ih

/-- Bounds on the per-frame increment computed with rounded arithmetic. -/
theorem increment_bounds (rnd : ℚ → ℚ) (u N : ℚ) (hu0 : 0 ≤ u) (hu : u ≤ 1 / 1000) (hN : 1 ≤ N)
    (hr : ∀ x : ℚ, 1 / 250 ≤ x → x ≤ 2 * N + 125 → |rnd x - x| ≤ u * x) :
    N / 127 ≤ rnd (N / rnd (2000 / 16)) ∧ rnd (N / rnd (2000 / 16)) ≤ N / 123 := by
  have h125 : (2000 : ℚ) / 16 = 125 := by norm_num
  rw [h125]
  have hd := hr 125 (by norm_num) (by linarith)
  rw [abs_le] at hd
  set d := rnd 125 with hdef
  have hd1 : 124 ≤ d := by nlinarith [hd.1]
  have hd2 : d ≤ 126 := by nlinarith [hd.2]
  have hdpos : 0 < d := by linarith
  have hq1 : N / 126 ≤ N / d := by
    apply div_le_div_of_nonneg_left (by linarith) hdpos hd2
  have hq2 : N / d ≤ N / 124 := by
    apply div_le_div_of_nonneg_left (by linarith) (by norm_num) hd1
  have hlo : (1 : ℚ) / 250 ≤ N / d := by
    have : (1 : ℚ) / 126 ≤ N / 126 := div_le_div_of_nonneg_right hN (by norm_num)
    linarith
  have hhi : N / d ≤ 2 * N + 125 := by
    have : N / 124 ≤ N := div_le_self (by linarith) (by norm_num)
    linarith
  have hi := hr (N / d) hlo hhi
  rw [abs_le] at hi
  set q := N / d with hq
  have hqpos : 0 ≤ q := by
    have : 0 ≤ N / 126 := by positivity
    linarith
  constructor
  · have : N / 127 ≤ q * (1 - 1 / 1000) := by
      have : N / 127 ≤ N / 126 * (1 - 1 / 1000) := by
        have : 0 ≤ N := by linarith
        linarith
      nlinarith
    nlinarith [hi.1]
  · have : q * (1 + 1 / 1000) ≤ N / 123 := by
      have : N / 124 * (1 + 1 / 1000) ≤ N / 123 := by
        have : 0 ≤ N := by linarith
        linarith
      nlinarith
    nlinarith [hi.2]

/-- One frame: the running total stays non-negative and grows by at least
`N / 200`. -/
theorem frame_progress (rnd : ℚ → ℚ) (u N inc c : ℚ) (hu : u ≤ 1 / 1000)
    (hN : 1 ≤ N)
    (hr : ∀ x : ℚ, 1 / 250 ≤ x → x ≤ 2 * N + 125 → |rnd x - x| ≤ u * x)
    (hi1 : N / 127 ≤ inc) (hi2 : inc ≤ N / 123) (hc0 : 0 ≤ c) (hc : c < N) :
    c + N / 200 ≤ rnd (c + inc) := by
  have hy := hr (c + inc) (by linarith) (by linarith)
  rw [abs_le] at hy
  have hy0 : 0 ≤ c + inc := by linarith
  have : u * (c + inc) ≤ 1 / 1000 * (c + inc) := by
    apply mul_le_mul_of_nonneg_right hu hy0
  linarith [hy.1]

theorem updateCounter_finishes (rnd : ℚ → ℚ) (u N inc : ℚ) (hu : u ≤ 1 / 1000) (hN : 1 ≤ N)
    (hr : ∀ x : ℚ, 1 / 250 ≤ x → x ≤ 2 * N + 125 → |rnd x - x| ≤ u * x)
    (hi1 : N / 127 ≤ inc) (hi2 : inc ≤ N / 123) :
    ∀ (frames : Nat) (c : ℚ), 0 ≤ c → c < N → N ≤ c + frames * (N / 200) →
      ∃ ws : List ℚ, updateCounter rnd N inc frames c = some (ws ++ [N]) ∧
        ws.length + 1 ≤ frames ∧ ∀ w ∈ ws, ∃ k : ℤ, w = k ∧ 0 ≤ k ∧ (k : ℚ) < N := by
  intro frames
  induction frames with
  | zero =>
    intro c _ hc h
    simp at h
    linarith
  | succ f ih =>
    intro c hc0 hc h
    have hp := frame_progress rnd u N inc c hu hN hr hi1 hi2 hc0 hc
    have hN0 : 0 ≤ N / 200 := by positivity
    rw [updateCounter]
    by_cases hlt : rnd (c + inc) < N
    · have hnext : N ≤ rnd (c + inc) + f * (N / 200) := by
        push_cast at h
        linarith
      obtain ⟨ws, hws, hlen, hprop⟩ := ih (rnd (c + inc)) (by linarith) hlt hnext
      refine ⟨(⌊rnd (c + inc)⌋ : ℚ) :: ws, ?_, by simpa using hlen, ?_⟩
      · simp only [if_pos hlt, hws]
        rfl
      · intro w hw
        rcases List.mem_cons.1 hw with rfl | hw
        · refine ⟨⌊rnd (c + inc)⌋, rfl, ?_, ?_⟩
          · exact Int.floor_nonneg.2 (by linarith)
          · exact lt_of_le_of_lt (Int.floor_le _) hlt
        · exact hprop w hw
    · refine ⟨[], ?_, by simp, by simp⟩
      simp only [if_neg hlt]
      rfl

/-- C5. Let the arithmetic of the script round every result with `rnd`, a
rounding whose relative error is at most `u <= 1/1000` on the values met
(binary64 has `u = 2^-53`).  Then for every integer target `n >= 1`
`animateCounter` ends within 200 animation frames: it writes a list `ws` of
values and then `n`, and every value of `ws` is an integer (the floor of the
running total) that is at least 0 and strictly less than `n`; so the last
value written is exactly `n` and no value written exceeds `n`. -/
theorem animateCounter_reaches_target (rnd : ℚ → ℚ) (u : ℚ) (n : ℕ) (hu0 : 0 ≤ u)
    (hu : u ≤ 1 / 1000) (hn : 1 ≤ n)
    (hr : ∀ x : ℚ, 1 / 250 ≤ x → x ≤ 2 * n + 125 → |rnd x - x| ≤ u * x) :
    ∃ ws : List ℚ,
      (∀ frames : Nat, 200 ≤ frames → animateCounter rnd n frames = some (ws ++ [(n : ℚ)])) ∧
      ws.length < 200 ∧
      ∀ w ∈ ws, ∃ k : ℤ, w = k ∧ 0 ≤ k ∧ k < n := by
  have hN : (1 : ℚ) ≤ n := by exact_mod_cast hn
  obtain ⟨hi1, hi2⟩ := increment_bounds rnd u n hu0 hu hN hr
  obtain ⟨ws, hws, hlen, hprop⟩ := updateCounter_finishes rnd u n _ hu hN hr hi1 hi2 200 0
    le_rfl (by linarith) (by push_cast; linarith)
  refine ⟨ws, ?_, by omega, ?_⟩
  · intro frames hf
    obtain ⟨more, rfl⟩ := Nat.exists_eq_add_of_le hf
    exact updateCounter_mono_le rnd n _ 200 0 _ hws more
  · intro w hw
    obtain ⟨k, hk, hk0, hkn⟩ := hprop w hw
    exact ⟨k, hk, hk0, by exact_mod_cast hkn⟩

/-- Witness of C5: with binary64 rounding, target 100 ends displaying exactly
100 after values that are integers below 100. -/
theorem animateCounter_reaches_target_witness :
    ∃ ws : List ℚ,
      (∀ frames : Nat, 200 ≤ frames →
        animateCounter roundBinary64 (100 : ℕ) frames = some (ws ++ [((100 : ℕ) : ℚ)])) ∧
      ws.length < 200 ∧
      ∀ w ∈ ws, ∃ k : ℤ, w = k ∧ 0 ≤ k ∧ k < (100 : ℕ) :=
  animateCounter_reaches_target roundBinary64 (1 / 2 ^ 53) 100 (by norm_num) (by norm_num)
    (by norm_num) (fun x h1 _ => roundBinary64_error x (by linarith))

end Appointly
